import Mathlib

/-!
Verification of the wsp/mulery reverse-HTTP-tunnel server core.

This file shallowly embeds the server-side data model and operations of the
repository (package `server`: `Connection`, `Pool`, dispatcher, registration
entry points; package `mulch`: key hashing and wire records) as executable
Lean definitions, and proves the specification claims about them.

Modelling conventions:
- Machine integers (`int`, `int64`) are `Nat` where the code only ever holds
  non-negative values (times, counters, lengths), and `Int` where the code can
  produce negative values (`strconv.Atoi` results).
- Times and durations are nanosecond counts (`Nat`), as in Go's `time`.
- A Go channel used as a FIFO buffer (`pool.idle`) is a `List` of connection
  ids, head = front of the queue.
- Close reasons, built in the code with `fmt` format strings, are modelled as
  an inductive datatype with one constructor per format string, carrying the
  formatted arguments.
- Lock-protected mutation (`Connection.lock`) is modelled by treating each
  locked code path as one atomic transition of a sequential state machine.
-/

/-- Go `ConnectionStatus` from `server/connection.go`: the lifecycle state of one
WebSocket connection. `Idle` is the initial state. -/
inductive ConnectionStatus where
  | Idle
  | Busy
  | Closed
deriving DecidableEq, Repr

/-- Close reasons, one constructor per reason string built in the code:
`"remote hang up"`, `"shutdown"`, `"idle <age>"`,
`"idle buffer pool <len> at capacity <cap>, too many connections"`,
`"proxy error"`. -/
inductive CloseReason where
  | remoteHangUp
  | shutdown
  | idleAged (age : Nat)
  | idleBufferAtCapacity (len cap : Nat)
  | proxyError
deriving DecidableEq, Repr

/-- Go `Connection` from `server/connection.go` (current revision, the one that
carries `connected` and `requests`).  The two fields `nextResponseCloses` and
`sockCloses` count how many times `close(c.nextResponse)` and `c.sock.Close()`
have executed, so that "closed exactly once" and "no double close panic" are
expressible; in Go, `close` of an already-closed channel panics, which here
would show up as one of these counters exceeding 1. -/
structure Connection where
  status : ConnectionStatus
  idleSince : Nat
  connected : Nat
  requests : Nat
  nextResponseCloses : Nat
  sockCloses : Nat
  closeReason : Option CloseReason
deriving DecidableEq, Repr

/-- Go `Connection.close` (the lock-free body from `server/connection.go`):
if already `Closed` do nothing; otherwise close the `nextResponse` channel,
close the underlying socket, and set the status to `Closed`. -/
def Connection.close (c : Connection) (reason : CloseReason) : Connection :=
  if c.status = ConnectionStatus.Closed then c
  else
    { c with
      nextResponseCloses := c.nextResponseCloses + 1
      sockCloses := c.sockCloses + 1
      closeReason := some reason
      status := ConnectionStatus.Closed }

/-- Go `Connection.Close` from `server/connection.go`: takes the connection lock
and runs `close`.  In the sequential model the locked body is `close` itself. -/
def Connection.Close (c : Connection) (reason : CloseReason) : Connection :=
  c.close reason

/-- Go `Connection.Take` from `server/connection.go`: under the lock, increment
the `requests` counter; if the status is `Idle`, move to `Busy` and succeed
(Go returns the connection), otherwise fail (Go returns `nil`).  The returned
`Bool` is the success flag. -/
def Connection.Take (c : Connection) : Connection × Bool :=
  let c := { c with requests := c.requests + 1 }
  if c.status = ConnectionStatus.Idle then
    ({ c with status := ConnectionStatus.Busy }, true)
  else
    (c, false)

/-- A freshly constructed connection, as built by `NewConnection` before its
`Give()` call: status `Idle`, no requests served, nothing closed. -/
def NewConnectionInit (now : Nat) : Connection :=
  { status := ConnectionStatus.Idle
    idleSince := 0
    connected := now
    requests := 0
    nextResponseCloses := 0
    sockCloses := 0
    closeReason := none }

/-- Go `idlePoolMultiplier` from `server/pool.go` `NewPool`: the idle channel is
allocated with capacity `client.MaxSize * idlePoolMultiplier`. -/
def idlePoolMultiplier : Nat := 3

/-- The observable state of one `Pool` from `server/pool.go`, together with the
states of all connections ever created for it.  Connections are identified by
allocation order (`nextId` is the next fresh id); `conn` gives each id's
current `Connection` state, `connections` is the pool's `connections` slice
(ids), `idleQueue` is the content of the buffered channel `pool.idle` (head =
front), `idleCap` its capacity, and `closed` the lifetime closed counter. -/
structure PoolState where
  nextId : Nat
  conn : Nat → Connection
  connections : List Nat
  idleQueue : List Nat
  idleCap : Nat
  minSize : Nat
  idleTimeout : Nat
  closed : Nat

/-- Update the state of connection `cid`. -/
def PoolState.setConn (p : PoolState) (cid : Nat) (c : Connection) : PoolState :=
  { p with conn := fun j => if j = cid then c else p.conn j }

/-- Go `NewPool` from `server/pool.go`: `minSize := client.Size + 1` (one more
than the handshake's idle size) and an idle channel of capacity
`client.MaxSize * idlePoolMultiplier`. -/
def NewPool (size maxSize idleTimeout : Nat) : PoolState :=
  { nextId := 0
    conn := fun _ => NewConnectionInit 0
    connections := []
    idleQueue := []
    idleCap := maxSize * idlePoolMultiplier
    minSize := size + 1
    idleTimeout := idleTimeout
    closed := 0 }

/-- Go `Connection.Give` from `server/connection.go`, with its pool made
explicit: if the connection is `Closed` do nothing; otherwise stamp
`idleSince`, set the status to `Idle`, and either close the connection when
the idle buffer is at capacity (`len(pool.idle) >= cap(pool.idle)`) or append
it to the idle buffer. -/
def PoolState.give (p : PoolState) (cid : Nat) (now : Nat) : PoolState :=
  let c := p.conn cid
  if c.status = ConnectionStatus.Closed then p
  else
    let c := { c with idleSince := now, status := ConnectionStatus.Idle }
    if p.idleCap ≤ p.idleQueue.length then
      p.setConn cid
        (c.close (CloseReason.idleBufferAtCapacity p.idleQueue.length p.idleCap))
    else
      { p.setConn cid c with idleQueue := p.idleQueue ++ [cid] }

/-- One dispatcher round at this pool, from `Server.dispatchRequest` /
`findSocketConnection` in `server/server.go`: receive the front connection
from the idle channel (if any) and attempt `Take()` on it.  On `Take` failure
the worker loops, which in this model is a subsequent `dispatch` step. -/
def PoolState.dispatch (p : PoolState) : PoolState :=
  match p.idleQueue with
  | [] => p
  | cid :: rest =>
    { p.setConn cid ((p.conn cid).Take).1 with idleQueue := rest }

/-- Go `Connection.Give` as called when an exchange completes
(`proxyRequest` success path): the caller holds a connection it previously
took, so its status is `Busy` unless it was closed concurrently, in which
case `Give` is a no-op by its own `Closed` guard. -/
def PoolState.giveBack (p : PoolState) (cid : Nat) (now : Nat) : PoolState :=
  if cid < p.nextId ∧ (p.conn cid).status = ConnectionStatus.Busy then
    p.give cid now
  else p

/-- Go `Connection.Close` on an existing connection of the pool (reader exit
`"remote hang up"`, handler `"proxy error"`, …). -/
def PoolState.closeConn (p : PoolState) (cid : Nat) (reason : CloseReason) :
    PoolState :=
  if cid < p.nextId then p.setConn cid ((p.conn cid).Close reason) else p

/-- Go `Pool.cleanConnection` from `server/pool.go`: under the connection's lock,
if the status is `Idle`, bump the running idle count and close the connection
with reason `"idle <age>"` when the count exceeds `pool.minSize` and the age
exceeds `pool.idleTimeout`; return the new idle count and whether to keep the
connection (kept iff not `Closed` afterwards). -/
def PoolState.cleanConnection (p : PoolState) (now : Nat) (c : Connection)
    (idle : Nat) : Connection × Nat × Bool :=
  let step :=
    if c.status = ConnectionStatus.Idle then
      let idle := idle + 1
      let age := now - c.idleSince
      if p.minSize < idle ∧ p.idleTimeout < age then
        (c.close (CloseReason.idleAged age), idle)
      else (c, idle)
    else (c, idle)
  (step.1, step.2, step.1.status != ConnectionStatus.Closed)

/-- Accumulator of `Pool.clean`'s walk: the connection states, the `save`
slice of kept ids, the running idle count, and how many connections were
dropped (each bumps `pool.closed`). -/
structure CleanAcc where
  conn : Nat → Connection
  save : List Nat
  idle : Nat
  removed : Nat

/-- One iteration of the `Pool.clean` loop body. -/
def PoolState.cleanStep (p : PoolState) (now : Nat) (acc : CleanAcc)
    (cid : Nat) : CleanAcc :=
  let r := p.cleanConnection now (acc.conn cid) acc.idle
  { conn := fun j => if j = cid then r.1 else acc.conn j
    save := if r.2.2 then acc.save ++ [cid] else acc.save
    idle := r.2.1
    removed := if r.2.2 then acc.removed else acc.removed + 1 }

/-- Go `Pool.clean` from `server/pool.go`: walk `pool.connections`, keep the
connections `cleanConnection` says to keep, and count every dropped one in
`pool.closed`. -/
def PoolState.clean (p : PoolState) (now : Nat) : PoolState :=
  let acc := p.connections.foldl (p.cleanStep now)
    { conn := p.conn, save := [], idle := 0, removed := 0 }
  { p with conn := acc.conn, connections := acc.save,
           closed := p.closed + acc.removed }

/-- Go `Pool.Register` / `NewConnection` followed by the pool coordinator's
`newConn` case in `keepRunning`: create a fresh `Idle` connection, run its
initial `Give()` (which enqueues it or closes it at capacity), then the
coordinator runs `clean()` and appends the connection to
`pool.connections`. -/
def PoolState.register (p : PoolState) (now : Nat) : PoolState :=
  let cid := p.nextId
  let p1 := { p.setConn cid (NewConnectionInit now) with nextId := p.nextId + 1 }
  let p2 := p1.give cid now
  let p3 := p2.clean now
  { p3 with connections := p3.connections ++ [cid] }

/-- Go `Pool.shutdown` from `server/pool.go`: close every connection in
`pool.connections` with reason `"shutdown"`. -/
def PoolState.shutdownOp (p : PoolState) : PoolState :=
  { p with conn := fun j =>
      if j ∈ p.connections then (p.conn j).Close CloseReason.shutdown
      else p.conn j }

/-- The pool's external operations, each one atomic code path of the pool or
of the dispatcher acting on the pool. -/
inductive PoolOp where
  | register (now : Nat)
  | dispatch
  | giveBack (cid now : Nat)
  | closeConn (cid : Nat) (reason : CloseReason)
  | clean (now : Nat)
  | shutdown
deriving DecidableEq, Repr

/-- Apply one operation. -/
def PoolState.apply (p : PoolState) : PoolOp → PoolState
  | PoolOp.register now => p.register now
  | PoolOp.dispatch => p.dispatch
  | PoolOp.giveBack cid now => p.giveBack cid now
  | PoolOp.closeConn cid r => p.closeConn cid r
  | PoolOp.clean now => p.clean now
  | PoolOp.shutdown => p.shutdownOp

/-- Run a list of operations from a state. -/
def PoolState.run (p : PoolState) : List PoolOp → PoolState
  | [] => p
  | op :: ops => (p.apply op).run ops

/-- The states a pool can reach from `NewPool` under its operations. -/
inductive PoolReachable (size maxSize idleTimeout : Nat) : PoolState → Prop where
  | init : PoolReachable size maxSize idleTimeout (NewPool size maxSize idleTimeout)
  | step (p : PoolState) (op : PoolOp) :
      PoolReachable size maxSize idleTimeout p →
      PoolReachable size maxSize idleTimeout (p.apply op)

/-- The inductive invariant of the pool state machine: the idle queue is
within capacity, has no duplicates, holds only allocated non-`Busy`
connections, every `Idle` connection is in it, every non-`Closed` connection
is in the `connections` slice, and the slice holds allocated ids without
duplicates. -/
structure PoolInv (p : PoolState) : Prop where
  capBound : p.idleQueue.length ≤ p.idleCap
  queueNodup : p.idleQueue.Nodup
  queueLt : ∀ cid ∈ p.idleQueue, cid < p.nextId
  queueNotBusy : ∀ cid ∈ p.idleQueue,
    (p.conn cid).status ≠ ConnectionStatus.Busy
  idleInQueue : ∀ cid, cid < p.nextId →
    (p.conn cid).status = ConnectionStatus.Idle → cid ∈ p.idleQueue
  openInConns : ∀ cid, cid < p.nextId →
    (p.conn cid).status ≠ ConnectionStatus.Closed → cid ∈ p.connections
  connsLt : ∀ cid ∈ p.connections, cid < p.nextId
  connsNodup : p.connections.Nodup

/-- A concrete pool state holding one taken (`Busy`) socket, used by
witnesses. -/
def sampleBusyPool : PoolState :=
  { nextId := 1
    conn := fun _ =>
      { NewConnectionInit 0 with status := ConnectionStatus.Busy }
    connections := [0]
    idleQueue := []
    idleCap := 6
    minSize := 2
    idleTimeout := 5
    closed := 0 }

/-- A concrete pool state holding one idle socket, used by witnesses. -/
def sampleIdlePool : PoolState :=
  { nextId := 1
    conn := fun _ => NewConnectionInit 0
    connections := [0]
    idleQueue := [0]
    idleCap := 6
    minSize := 1
    idleTimeout := 5
    closed := 0 }

/-- Go `time.Second` in nanoseconds. -/
def second : Nat := 1000000000

/-- Go `time.Minute` in nanoseconds. -/
def minute : Nat := 60 * second

/-- Go `Config` from `server/config.go` (the fields the claims touch). -/
structure Config where
  host : String
  port : Nat
  timeout : Nat
  idleTimeout : Nat
  secretKey : String
deriving DecidableEq, Repr

/-- Go `NewConfig` from `server/config.go`: dispatch `Timeout` defaults to
`time.Second`, `IdleTimeout` to `time.Minute + time.Second`. -/
def NewConfig : Config :=
  { host := "127.0.0.1"
    port := 8080
    timeout := second
    idleTimeout := minute + second
    secretKey := "" }

/-- Go `ProxyErrorCode` from `mulch`: the 526 status the server synthesizes. -/
def ProxyErrorCode : Nat := 526

/-- Go `ClientErrorCode` from `mulch`. -/
def ClientErrorCode : Nat := 527

/-- Outcome of one `findSocketConnection` call inside the
`Server.dispatchRequest` worker loop: `removed` = a pool was removed
mid-select (`ok == false`, retry), `noPool` = the requested target has no
pool (`connection == nil`, give up), `found cid` = an idle-queue head to try
`Take()` on. -/
inductive FindResult where
  | removed
  | noPool
  | found (cid : Nat)
deriving DecidableEq, Repr

/-- The environment of one iteration of the `dispatchRequest` loop: the
current clock when the `ctx.Done()` select runs, whether `len(s.pools) == 0`,
and what `findSocketConnection` returns. -/
structure DispatchStep where
  now : Nat
  poolsEmpty : Bool
  find : FindResult
deriving DecidableEq, Repr

/-- Pointwise update of a connection map. -/
def updateConn (conns : Nat → Connection) (cid : Nat) (c : Connection) :
    Nat → Connection :=
  fun j => if j = cid then c else conns j

/-- The loop of `Server.dispatchRequest` from `server/server.go`, driven by a
trace of iteration environments: return on deadline expiry (`ctx.Done()`), on
no pools, or on a nil pool (`noPool`); on `found cid` attempt `Take()`,
delivering the connection on success and looping otherwise; on `removed`
loop.  The first component of the result is what is sent on
`request.connection` before the deferred `close` (`none` = the channel is
closed without a connection and the caller reads `nil`). -/
def dispatchLoop (deadline : Nat) (conns : Nat → Connection) :
    List DispatchStep → Option Nat × (Nat → Connection)
  | [] => (none, conns)
  | step :: rest =>
    if deadline ≤ step.now then (none, conns)
    else if step.poolsEmpty then (none, conns)
    else
      match step.find with
      | FindResult.removed => dispatchLoop deadline conns rest
      | FindResult.noPool => (none, conns)
      | FindResult.found cid =>
        if ((conns cid).Take).2 then
          (some cid, updateConn conns cid ((conns cid).Take).1)
        else
          dispatchLoop deadline (updateConn conns cid ((conns cid).Take).1)
            rest

/-- Go `Server.dispatchRequest`: the context deadline is
`start + s.Config.Timeout` (`context.WithTimeout`). -/
def Server.dispatchRequest (cfg : Config) (start : Nat)
    (conns : Nat → Connection) (steps : List DispatchStep) :
    Option Nat × (Nat → Connection) :=
  dispatchLoop (start + cfg.timeout) conns steps

/-- Go `HandleRequest`'s handling of the dispatcher reply
(`server/handlers.go`): a `nil` connection is surfaced to the caller as HTTP
`ProxyErrorCode` (via `ProxyError`); a real connection proceeds to the
exchange with no synthesized status. -/
def handleDispatchReply : Option Nat → Option Nat
  | none => some ProxyErrorCode
  | some _ => none

/-- The 32-bit word modulus. -/
def word32 : Nat := 4294967296

/-- The 32-bit rotate right (operand assumed below `word32`). -/
def rotr32 (n x : Nat) : Nat :=
  ((x >>> n) ||| (x <<< (32 - n))) % word32

/-- Model of `crypto/sha256` (Go standard library, FIPS 180-4), used by
`mulch.HashKeyID` and `Server.registerPool`.  Bytes are `Nat`s below 256,
words `Nat`s below `word32`. -/
def sha256K : List Nat :=
  [1116352408, 1899447441, 3049323471,
   3921009573, 961987163, 1508970993,
   2453635748, 2870763221, 3624381080,
   310598401, 607225278, 1426881987,
   1925078388, 2162078206, 2614888103,
   3248222580, 3835390401, 4022224774,
   264347078, 604807628, 770255983,
   1249150122, 1555081692, 1996064986,
   2554220882, 2821834349, 2952996808,
   3210313671, 3336571891, 3584528711,
   113926993, 338241895, 666307205,
   773529912, 1294757372, 1396182291,
   1695183700, 1986661051, 2177026350,
   2456956037, 2730485921, 2820302411,
   3259730800, 3345764771, 3516065817,
   3600352804, 4094571909, 275423344,
   430227734, 506948616, 659060556,
   883997877, 958139571, 1322822218,
   1537002063, 1747873779, 1955562222,
   2024104815, 2227730452, 2361852424,
   2428436474, 2756734187, 3204031479,
   3329325298]

/-- SHA-256 initial hash state. -/
def sha256Init : List Nat :=
  [1779033703, 3144134277, 1013904242,
   2773480762, 1359893119, 2600822924,
   528734635, 1541459225]

/-- Big-endian bytes of a 64-bit length. -/
def be64 (n : Nat) : List Nat :=
  [(n >>> 56) % 256, (n >>> 48) % 256, (n >>> 40) % 256, (n >>> 32) % 256,
   (n >>> 24) % 256, (n >>> 16) % 256, (n >>> 8) % 256, n % 256]

/-- Big-endian bytes of a 32-bit word. -/
def be32 (n : Nat) : List Nat :=
  [(n >>> 24) % 256, (n >>> 16) % 256, (n >>> 8) % 256, n % 256]

/-- SHA-256 padding: `0x80`, zeros to 56 mod 64, then the bit length. -/
def sha256Pad (msg : List Nat) : List Nat :=
  let zeros := (64 - (msg.length + 9) % 64) % 64
  msg ++ [0x80] ++ List.replicate zeros 0 ++ be64 (msg.length * 8)

/-- The 16 big-endian 32-bit words of one 64-byte block. -/
def wordsOf (block : List Nat) : List Nat :=
  (List.range 16).map (fun i =>
    (block.getD (4 * i) 0 <<< 24) + (block.getD (4 * i + 1) 0 <<< 16) +
    (block.getD (4 * i + 2) 0 <<< 8) + block.getD (4 * i + 3) 0)

/-- One message-schedule extension step. -/
def scheduleStep (w : List Nat) : List Nat :=
  let s0 :=
    rotr32 7 (w.getD (w.length - 15) 0) ^^^
    rotr32 18 (w.getD (w.length - 15) 0) ^^^
    (w.getD (w.length - 15) 0 >>> 3)
  let s1 :=
    rotr32 17 (w.getD (w.length - 2) 0) ^^^
    rotr32 19 (w.getD (w.length - 2) 0) ^^^
    (w.getD (w.length - 2) 0 >>> 10)
  w ++ [(w.getD (w.length - 16) 0 + s0 + w.getD (w.length - 7) 0 + s1) %
    word32]

/-- Extend the 16 schedule words to 64. -/
def sha256Schedule (block : List Nat) : List Nat :=
  (List.range 48).foldl (fun w _ => scheduleStep w) (wordsOf block)

/-- One compression round. -/
def sha256Round (s : List Nat) (kw : Nat × Nat) : List Nat :=
  let a := s.getD 0 0
  let b := s.getD 1 0
  let c := s.getD 2 0
  let d := s.getD 3 0
  let e := s.getD 4 0
  let f := s.getD 5 0
  let g := s.getD 6 0
  let h := s.getD 7 0
  let s1 := rotr32 6 e ^^^ rotr32 11 e ^^^ rotr32 25 e
  let ch := (e &&& f) ^^^ ((e ^^^ 4294967295) &&& g)
  let t1 := (h + s1 + ch + kw.1 + kw.2) % word32
  let s0 := rotr32 2 a ^^^ rotr32 13 a ^^^ rotr32 22 a
  let mj := (a &&& b) ^^^ (a &&& c) ^^^ (b &&& c)
  let t2 := (s0 + mj) % word32
  [(t1 + t2) % word32, a, b, c, (d + t1) % word32, e, f, g]

/-- Compress one 64-byte block into the running hash state. -/
def sha256Compress (hs : List Nat) (block : List Nat) : List Nat :=
  let w := sha256Schedule block
  let s := (sha256K.zip w).foldl sha256Round hs
  List.zipWith (fun x y => (x + y) % word32) hs s

/-- SHA-256 of a byte list. -/
def sha256Bytes (msg : List Nat) : List Nat :=
  let padded := sha256Pad msg
  let hs := (List.range (padded.length / 64)).foldl
    (fun h i => sha256Compress h ((padded.drop (64 * i)).take 64))
    sha256Init
  (hs.map be32).flatten

/-- One lowercase hexadecimal digit. -/
def hexDigit (n : Nat) : Char :=
  if n < 10 then Char.ofNat (48 + n) else Char.ofNat (87 + n)

/-- Lowercase hex encoding of a byte list (`encoding/hex`, `fmt %x`). -/
def hexEncode (bytes : List Nat) : String :=
  String.mk (bytes.foldr
    (fun b acc => hexDigit (b / 16) :: hexDigit (b % 16) :: acc) [])

/-- UTF-8 bytes of one character (Go strings are UTF-8). -/
def utf8Bytes (c : Char) : List Nat :=
  let n := c.toNat
  if n < 0x80 then [n]
  else if n < 0x800 then [0xc0 + n / 64, 0x80 + n % 64]
  else if n < 0x10000 then
    [0xe0 + n / 4096, 0x80 + (n / 64) % 64, 0x80 + n % 64]
  else
    [0xf0 + n / 262144, 0x80 + (n / 4096) % 64, 0x80 + (n / 64) % 64,
     0x80 + n % 64]

/-- The bytes of a Go string. -/
def strBytes (s : String) : List Nat :=
  (s.data.map utf8Bytes).flatten

/-- Go `HashKeyID` from `mulch/mulch.go`: empty secret returns the client id
verbatim; otherwise the hex of SHA-256 of `secret + clientID`. -/
def HashKeyID (secret clientID : String) : String :=
  if secret = "" then clientID
  else hexEncode (sha256Bytes (strBytes (secret ++ clientID)))

/-- The key computation at the top of `Server.registerPool`
(`server/server.go`): when the validator-returned secret is non-empty, the
pool id is replaced by `%x` of `sha256.Sum(secret + id)`; otherwise the id is
used as-is. -/
def registerPoolKey (secret id : String) : String :=
  if secret ≠ "" then hexEncode (sha256Bytes (strBytes (secret ++ id)))
  else id

/-- Lookup in the server's `pools` map (`s.pools[id]`), modelled as an
association list from pool key to the number of connections registered into
the pool. -/
def findPool : List (String × Nat) → String → Option Nat
  | [], _ => none
  | kv :: rest, key => if kv.1 = key then some kv.2 else findPool rest key

/-- Go `Server.registerPool` from `server/server.go`: rewrite the id by
`registerPoolKey`, create the pool when no pool exists for that key, then
`Register` the socket into the keyed pool. -/
def registerPool (pools : List (String × Nat)) (secret id : String) :
    List (String × Nat) :=
  (if findPool pools (registerPoolKey secret id) = none
   then pools ++ [(registerPoolKey secret id, 0)]
   else pools).map
    (fun kv =>
      if kv.1 = registerPoolKey secret id then (kv.1, kv.2 + 1) else kv)

/-- Go `mulch.SecretKeyHeader`. -/
def SecretKeyHeader : String := "x-secret-key"

/-- Go `http.Header.Get`: first value of the key, or `""` (MIME-casing
canonicalization elided; all keys in this development are already
canonical on both sides). -/
def headerGet : List (String × List String) → String → String
  | [], _ => ""
  | kv :: rest, key => if kv.1 = key then kv.2.headD "" else headerGet rest key

/-- Go `Server.validateKey` from `server/handlers.go`: run the custom validator
when configured; otherwise compare the `x-secret-key` header against
`Config.SecretKey` and — deliberately — return the empty string, never the
configured secret key, as the secret. -/
def validateKey
    (keyValidator : Option (List (String × List String) →
      Except String String))
    (secretKey : String) (header : List (String × List String)) :
    Except String String :=
  match keyValidator with
  | some v =>
    match v header with
    | Except.error e => Except.error ("custom key validation failed: " ++ e)
    | Except.ok s => Except.ok s
  | none =>
    if headerGet header SecretKeyHeader = secretKey then Except.ok ""
    else Except.error "invalid secret key provided"

/-- Running decimal-digit accumulator for `strconv.Atoi`: `none` on an empty
or non-digit string. -/
def digitsVal (l : List Char) : Option Nat :=
  if l.isEmpty then none
  else l.foldl
    (fun acc c =>
      match acc with
      | none => none
      | some n =>
        if 48 ≤ c.toNat ∧ c.toNat ≤ 57 then some (n * 10 + (c.toNat - 48))
        else none)
    (some 0)

/-- Model of `strconv.Atoi`: optional sign then decimal digits (the 64-bit
range check is elided; the greetings in scope are far below it). -/
def atoi (s : String) : Option Int :=
  match s.data with
  | '-' :: rest => (digitsVal rest).map (fun n => -(n : Int))
  | '+' :: rest => (digitsVal rest).map (fun n => (n : Int))
  | l => (digitsVal l).map (fun n => (n : Int))

/-- Go `strings.Split` with a one-character separator. -/
def splitOnChar (sep : Char) : List Char → List (List Char)
  | [] => [[]]
  | c :: rest =>
    if c = sep then [] :: splitOnChar sep rest
    else
      match splitOnChar sep rest with
      | [] => [[c]]
      | h :: t => (c :: h) :: t

/-- Go `PoolConfig` as constructed positionally by `parseGreeting` in
`server/handlers.go`: `{size, max, clientID(split[0]), "", sock}` (the
socket is not part of the data model). -/
structure PoolConfig where
  size : Int
  max : Int
  id : String
  secret : String
deriving DecidableEq, Repr

/-- Go `parseGreeting` from `server/handlers.go`: split the greeting text on
`"_"`, require exactly three fields, parse fields 1 and 2 with
`strconv.Atoi`.  There is no comparison of `size` against `max`. -/
def parseGreeting (greeting : String) : Except String PoolConfig :=
  match (splitOnChar '_' greeting.data).map (fun cs => String.mk cs) with
  | [id, szStr, mxStr] =>
    match atoi szStr with
    | none => Except.error "unable to parse greeting message"
    | some size =>
      match atoi mxStr with
      | none => Except.error "unable to parse greeting message"
      | some mx =>
        Except.ok { size := size, max := mx, id := id, secret := "" }
  | _ => Except.error "invalid data received: greeting separator count is wrong"

/-- Steps 2–3 of `HandleRegister` from `server/handlers.go`, after
credential validation and the upgrade: parse the greeting; on error the
socket is closed and nothing is registered (`none`); on success the config,
with the validator's secret attached, is sent on `s.newPool` — handed to the
dispatcher, which always registers it (`some`). -/
def HandleRegister (secret : String) (greeting : String) : Option PoolConfig :=
  match parseGreeting greeting with
  | Except.error _ => none
  | Except.ok cfg => some { cfg with secret := secret }

/-- Model of `net/url` (external dependency, not part of this repository):
a parsed URL is represented by its canonical string form.  `url.Parse` fails
on ASCII control characters and otherwise succeeds, and `URL.String` returns
the canonical form, so parse-then-print is the identity on strings produced
by `URL.String` — the property of `net/url` this development relies on. -/
structure URL where
  raw : String
deriving DecidableEq, Repr

/-- Go `url.URL.String()`. -/
def urlString (u : URL) : String := u.raw

/-- Go `url.Parse`. -/
def urlParse (s : String) : Option URL :=
  if s.data.any (fun c => c.toNat < 32) then none else some { raw := s }

/-- Go `HTTPRequest` from `mulch/httprequest.go`: the serializable wire record
`{method, url, header, contentLength, remoteAddr, host, proto,
requestUri}`. -/
structure HTTPRequest where
  method : String
  url : String
  header : List (String × List String)
  contentLength : Int
  remoteAddr : String
  host : String
  proto : String
  requestURI : String
deriving DecidableEq, Repr

/-- The fields of Go's `http.Request` that the serializer touches.  `url`
is a pointer (`*url.URL`), hence optional: `UnserializeHTTPRequest` ignores
the `url.Parse` error and can leave it nil. -/
structure HttpRequest where
  method : String
  url : Option URL
  header : List (String × List String)
  contentLength : Int
  remoteAddr : String
  host : String
  proto : String
  requestURI : String
deriving DecidableEq, Repr

/-- Go `SerializeHTTPRequest` from `mulch/httprequest.go`: copy the fields into
the wire record, rendering the URL with `req.URL.String()` (Go dereferences
`req.URL`, so a nil URL is outside its domain). -/
def SerializeHTTPRequest (r : HttpRequest) : Option HTTPRequest :=
  r.url.map (fun u =>
    { method := r.method
      url := urlString u
      header := r.header
      contentLength := r.contentLength
      remoteAddr := r.remoteAddr
      host := r.host
      proto := r.proto
      requestURI := r.requestURI })

/-- Go `UnserializeHTTPRequest` from `mulch/httprequest.go`: re-parse the URL
string with `url.Parse`, ignoring the error (`url, _ := url.Parse(req.URL)`),
and copy the other fields back. -/
def UnserializeHTTPRequest (h : HTTPRequest) : HttpRequest :=
  { method := h.method
    url := urlParse h.url
    header := h.header
    contentLength := h.contentLength
    remoteAddr := h.remoteAddr
    host := h.host
    proto := h.proto
    requestURI := h.requestURI }

/-- Claim C1: `Take` succeeds exactly when the connection's status at the call
is `Idle`, in which case it transitions `Idle → Busy`; when the status is
`Busy` or `Closed` it fails and leaves the status unchanged; and after a
successful `Take`, a second `Take` on the result fails, so of any set of
serialized (lock-ordered) `Take` callers at most one obtains the socket. -/
theorem claimC1_take (c : Connection) :
    ((c.Take).2 = true ↔ c.status = ConnectionStatus.Idle) ∧
    (c.status = ConnectionStatus.Idle →
      (c.Take).1.status = ConnectionStatus.Busy) ∧
    (c.status ≠ ConnectionStatus.Idle → (c.Take).1.status = c.status) ∧
    (c.status = ConnectionStatus.Idle → (((c.Take).1).Take).2 = false) := by
  unfold Connection.Take
  by_cases h : c.status = ConnectionStatus.Idle <;>
    simp [h]

/-- Witness for C1 at a concrete idle connection. -/
theorem claimC1_take_witness :
    ((NewConnectionInit 3).Take).1.status = ConnectionStatus.Busy ∧
    ((((NewConnectionInit 3).Take).1).Take).2 = false := by
  refine ⟨(claimC1_take (NewConnectionInit 3)).2.1 ?_,
    (claimC1_take (NewConnectionInit 3)).2.2.2 ?_⟩ <;> rfl

/-- Claim C7: `Close` is idempotent.  Once a `Close` has transitioned the
connection to `Closed`, a second `Close` changes nothing: the status stays
`Closed`, the `nextResponse` channel and the underlying socket have each been
closed exactly once, and no double-close (the Go panic) occurs. -/
theorem claimC7_close_idempotent (c : Connection) (r r' : CloseReason)
    (hs : c.status ≠ ConnectionStatus.Closed)
    (hn : c.nextResponseCloses = 0) (hk : c.sockCloses = 0) :
    ((c.Close r).Close r') = c.Close r ∧
    (c.Close r).status = ConnectionStatus.Closed ∧
    (c.Close r).nextResponseCloses = 1 ∧
    ((c.Close r).Close r').nextResponseCloses = 1 ∧
    (c.Close r).sockCloses = 1 ∧
    ((c.Close r).Close r').sockCloses = 1 := by
  unfold Connection.Close Connection.close
  simp [hs, hn, hk]

/-- Witness for C7 at a concrete open connection. -/
theorem claimC7_close_idempotent_witness :
    (((NewConnectionInit 5).Close CloseReason.remoteHangUp).Close
        CloseReason.proxyError) =
      (NewConnectionInit 5).Close CloseReason.remoteHangUp ∧
    ((NewConnectionInit 5).Close CloseReason.remoteHangUp).status =
      ConnectionStatus.Closed ∧
    ((NewConnectionInit 5).Close CloseReason.remoteHangUp).nextResponseCloses
      = 1 := by
  have h := claimC7_close_idempotent (NewConnectionInit 5)
    CloseReason.remoteHangUp CloseReason.proxyError
    (by decide) (by decide) (by decide)
  exact ⟨h.1, h.2.1, h.2.2.1⟩

theorem PoolState.setConn_conn (p : PoolState) (cid : Nat) (c : Connection)
    (j : Nat) : (p.setConn cid c).conn j = if j = cid then c else p.conn j :=
  rfl

theorem Connection.close_status (c : Connection) (r : CloseReason) :
    (c.close r).status = ConnectionStatus.Closed := by
  unfold Connection.close
  split
  case isTrue h => exact h
  case isFalse h => rfl

theorem Connection.Take_fst_status (c : Connection) :
    ((c.Take).1).status =
      if c.status = ConnectionStatus.Idle then ConnectionStatus.Busy
      else c.status := by
  unfold Connection.Take
  by_cases h : c.status = ConnectionStatus.Idle <;> simp [h]

theorem inv_init (size maxSize idleTimeout : Nat) :
    PoolInv (NewPool size maxSize idleTimeout) := by
  constructor <;> simp [NewPool]

theorem inv_closeConn (p : PoolState) (cid : Nat) (r : CloseReason)
    (inv : PoolInv p) : PoolInv (p.closeConn cid r) := by
  unfold PoolState.closeConn
  split
  case isFalse => exact inv
  case isTrue hlt =>
    refine ⟨?_, ?_, ?_, ?_, ?_, ?_, ?_, ?_⟩
    · exact inv.capBound
    · exact inv.queueNodup
    · exact inv.queueLt
    · intro j hj
      rw [PoolState.setConn_conn]
      split
      case isTrue => simp [Connection.Close, Connection.close_status]
      case isFalse => exact inv.queueNotBusy j hj
    · intro j hj hidle
      rw [PoolState.setConn_conn] at hidle
      split at hidle
      case isTrue =>
        rw [Connection.Close, Connection.close_status] at hidle
        exact absurd hidle (by simp)
      case isFalse => exact inv.idleInQueue j hj hidle
    · intro j hj hopen
      rw [PoolState.setConn_conn] at hopen
      split at hopen
      case isTrue =>
        rw [Connection.Close, Connection.close_status] at hopen
        exact absurd rfl hopen
      case isFalse => exact inv.openInConns j hj hopen
    · exact inv.connsLt
    · exact inv.connsNodup

theorem inv_dispatch (p : PoolState) (inv : PoolInv p) :
    PoolInv p.dispatch := by
  unfold PoolState.dispatch
  split
  case h_1 => exact inv
  case h_2 cid rest hq =>
    have hmem : cid ∈ p.idleQueue := by rw [hq]; exact List.mem_cons_self cid rest
    have hrest : ∀ j ∈ rest, j ∈ p.idleQueue := by
      intro j hj; rw [hq]; exact List.mem_cons_of_mem cid hj
    have hnodup : (cid :: rest).Nodup := hq ▸ inv.queueNodup
    have hhead : cid ∉ rest := (List.nodup_cons.mp hnodup).1
    refine ⟨?_, ?_, ?_, ?_, ?_, ?_, ?_, ?_⟩
    · refine le_trans ?_ inv.capBound
      rw [hq]; simp
    · exact (List.nodup_cons.mp hnodup).2
    · intro j hj; exact inv.queueLt j (hrest j hj)
    · intro j hj
      rw [PoolState.setConn_conn]
      split
      case isTrue heq => exact absurd (heq ▸ hj) hhead
      case isFalse => exact inv.queueNotBusy j (hrest j hj)
    · intro j hj hidle
      rw [PoolState.setConn_conn] at hidle
      split at hidle
      case isTrue heq =>
        rw [Connection.Take_fst_status] at hidle
        split at hidle
        · exact absurd hidle (by simp)
        · exact absurd hidle (by assumption)
      case isFalse hne =>
        have := inv.idleInQueue j hj hidle
        rw [hq] at this
        cases this with
        | head => exact absurd rfl hne
        | tail _ h => exact h
    · intro j hj hopen
      rw [PoolState.setConn_conn] at hopen
      split at hopen
      case isTrue heq =>
        subst heq
        rw [Connection.Take_fst_status] at hopen
        refine inv.openInConns j hj ?_
        split at hopen
        case isTrue hIdle => intro hc; rw [hc] at hIdle; exact absurd hIdle (by simp)
        case isFalse => exact hopen
      case isFalse => exact inv.openInConns j hj hopen
    · exact inv.connsLt
    · exact inv.connsNodup

theorem inv_shutdown (p : PoolState) (inv : PoolInv p) :
    PoolInv p.shutdownOp := by
  unfold PoolState.shutdownOp
  refine ⟨inv.capBound, inv.queueNodup, inv.queueLt, ?_, ?_, ?_,
    inv.connsLt, inv.connsNodup⟩
  · intro j hj
    simp only
    split
    case isTrue => simp [Connection.Close, Connection.close_status]
    case isFalse => exact inv.queueNotBusy j hj
  · intro j hj hidle
    simp only at hidle
    split at hidle
    case isTrue =>
      rw [Connection.Close, Connection.close_status] at hidle
      exact absurd hidle (by simp)
    case isFalse => exact inv.idleInQueue j hj hidle
  · intro j hj hopen
    simp only at hopen
    split at hopen
    case isTrue hmem => exact hmem
    case isFalse => exact inv.openInConns j hj hopen

theorem cleanConnection_fst (p : PoolState) (now : Nat) (c : Connection)
    (idle : Nat) :
    (p.cleanConnection now c idle).1 = c ∨
    (c.status = ConnectionStatus.Idle ∧
      (p.cleanConnection now c idle).1 =
        c.close (CloseReason.idleAged (now - c.idleSince))) := by
  unfold PoolState.cleanConnection
  by_cases h1 : c.status = ConnectionStatus.Idle
  · by_cases h2 : p.minSize < idle + 1 ∧ p.idleTimeout < now - c.idleSince
    · right; exact ⟨h1, by simp [h1, h2]⟩
    · left; simp [h1, h2]
  · left; simp [h1]

theorem cleanConnection_keep (p : PoolState) (now : Nat) (c : Connection)
    (idle : Nat) :
    (p.cleanConnection now c idle).2.2 = true ↔
      (p.cleanConnection now c idle).1.status ≠ ConnectionStatus.Closed := by
  unfold PoolState.cleanConnection
  simp [bne_iff_ne]

theorem cleanFold_conn_not_mem (p : PoolState) (now : Nat) :
    ∀ (l : List Nat) (acc : CleanAcc) (j : Nat), j ∉ l →
      (List.foldl (p.cleanStep now) acc l).conn j = acc.conn j := by
  intro l
  induction l with
  | nil => intro acc j _; rfl
  | cons cid rest ih =>
    intro acc j hj
    rw [List.foldl_cons]
    have hne : j ≠ cid := fun h => hj (h ▸ List.mem_cons_self cid rest)
    rw [ih _ j (fun h => hj (List.mem_cons_of_mem cid h))]
    simp [PoolState.cleanStep, hne]

theorem cleanFold_status (p : PoolState) (now : Nat) :
    ∀ (l : List Nat) (acc : CleanAcc) (j : Nat),
      ((List.foldl (p.cleanStep now) acc l).conn j).status =
        (acc.conn j).status ∨
      ((acc.conn j).status = ConnectionStatus.Idle ∧
        ((List.foldl (p.cleanStep now) acc l).conn j).status =
          ConnectionStatus.Closed) := by
  intro l
  induction l with
  | nil => intro acc j; exact Or.inl rfl
  | cons cid rest ih =>
    intro acc j
    rw [List.foldl_cons]
    have hstep : ((p.cleanStep now acc cid).conn j).status = (acc.conn j).status ∨
        ((acc.conn j).status = ConnectionStatus.Idle ∧
          ((p.cleanStep now acc cid).conn j).status = ConnectionStatus.Closed) := by
      by_cases hje : j = cid
      · subst hje
        rcases cleanConnection_fst p now (acc.conn j) acc.idle with h | ⟨hidle, h⟩
        · left; simp [PoolState.cleanStep, h]
        · right
          refine ⟨hidle, ?_⟩
          simp [PoolState.cleanStep, h, Connection.close_status]
      · left; simp [PoolState.cleanStep, hje]
    rcases hstep with h1 | ⟨hidle, h1⟩
    · rcases ih (p.cleanStep now acc cid) j with h2 | ⟨hidle2, h2⟩
      · left; exact h2.trans h1
      · right; exact ⟨h1 ▸ hidle2, h2⟩
    · rcases ih (p.cleanStep now acc cid) j with h2 | ⟨_, h2⟩
      · right; exact ⟨hidle, h2.trans h1⟩
      · right; exact ⟨hidle, h2⟩

theorem cleanFold_save (p : PoolState) (now : Nat) :
    ∀ (l : List Nat) (acc : CleanAcc), ∃ kl : List Nat,
      (List.foldl (p.cleanStep now) acc l).save = acc.save ++ kl ∧
      kl.Sublist l ∧
      (List.foldl (p.cleanStep now) acc l).removed + kl.length =
        acc.removed + l.length := by
  intro l
  induction l with
  | nil => intro acc; exact ⟨[], by simp, List.Sublist.refl _, by simp⟩
  | cons cid rest ih =>
    intro acc
    rw [List.foldl_cons]
    obtain ⟨kl, h1, h2, h3⟩ := ih (p.cleanStep now acc cid)
    by_cases hkeep : (p.cleanConnection now (acc.conn cid) acc.idle).2.2 = true
    · refine ⟨cid :: kl, ?_, List.Sublist.cons₂ cid h2, ?_⟩
      · rw [h1]
        have hsv : (p.cleanStep now acc cid).save = acc.save ++ [cid] := by
          simp [PoolState.cleanStep, hkeep]
        rw [hsv, List.append_assoc]
        rfl
      · have hrm : (p.cleanStep now acc cid).removed = acc.removed := by
          simp [PoolState.cleanStep, hkeep]
        rw [hrm] at h3
        simp only [List.length_cons]
        omega
    · refine ⟨kl, ?_, List.Sublist.cons cid h2, ?_⟩
      · rw [h1]
        have hsv : (p.cleanStep now acc cid).save = acc.save := by
          simp [PoolState.cleanStep, hkeep]
        rw [hsv]
      · have hrm : (p.cleanStep now acc cid).removed = acc.removed + 1 := by
          simp [PoolState.cleanStep, hkeep]
        rw [hrm] at h3
        simp only [List.length_cons]
        omega

theorem cleanFold_kept (p : PoolState) (now : Nat) :
    ∀ (l : List Nat) (acc : CleanAcc), l.Nodup → ∀ j ∈ l,
      j ∈ (List.foldl (p.cleanStep now) acc l).save ∨
      ((List.foldl (p.cleanStep now) acc l).conn j).status =
        ConnectionStatus.Closed := by
  intro l
  induction l with
  | nil => intro acc _ j hj; exact absurd hj (List.not_mem_nil j)
  | cons cid rest ih =>
    intro acc hnd j hj
    rw [List.foldl_cons]
    rcases List.mem_cons.mp hj with hje | hjr
    · subst hje
      have hnotin : j ∉ rest := (List.nodup_cons.mp hnd).1
      by_cases hkeep : (p.cleanConnection now (acc.conn j) acc.idle).2.2 = true
      · left
        obtain ⟨kl, h1, _, _⟩ := cleanFold_save p now rest (p.cleanStep now acc j)
        rw [h1]
        have hmem : j ∈ (p.cleanStep now acc j).save := by
          simp [PoolState.cleanStep, hkeep]
        exact List.mem_append_left _ hmem
      · right
        rw [cleanFold_conn_not_mem p now rest _ j hnotin]
        have hcl : (p.cleanConnection now (acc.conn j) acc.idle).1.status =
            ConnectionStatus.Closed := by
          by_contra hne
          exact hkeep ((cleanConnection_keep p now (acc.conn j) acc.idle).mpr hne)
        simp [PoolState.cleanStep, hcl]
    · exact ih (p.cleanStep now acc cid) (List.nodup_cons.mp hnd).2 j hjr

theorem clean_nextId (p : PoolState) (now : Nat) :
    (p.clean now).nextId = p.nextId := rfl

theorem clean_idleQueue (p : PoolState) (now : Nat) :
    (p.clean now).idleQueue = p.idleQueue := rfl

theorem clean_idleCap (p : PoolState) (now : Nat) :
    (p.clean now).idleCap = p.idleCap := rfl

theorem clean_status (p : PoolState) (now : Nat) (j : Nat) :
    ((p.clean now).conn j).status = (p.conn j).status ∨
    ((p.conn j).status = ConnectionStatus.Idle ∧
      ((p.clean now).conn j).status = ConnectionStatus.Closed) :=
  cleanFold_status p now p.connections
    { conn := p.conn, save := [], idle := 0, removed := 0 } j

theorem clean_conn_not_mem (p : PoolState) (now : Nat) (j : Nat)
    (hj : j ∉ p.connections) : (p.clean now).conn j = p.conn j :=
  cleanFold_conn_not_mem p now p.connections
    { conn := p.conn, save := [], idle := 0, removed := 0 } j hj

theorem clean_connections_sublist (p : PoolState) (now : Nat) :
    (p.clean now).connections.Sublist p.connections ∧
    (p.clean now).closed + (p.clean now).connections.length =
      p.closed + p.connections.length := by
  obtain ⟨kl, h1, h2, h3⟩ := cleanFold_save p now p.connections
    { conn := p.conn, save := [], idle := 0, removed := 0 }
  have hc : (p.clean now).connections = kl := by
    show (List.foldl (p.cleanStep now) _ p.connections).save = kl
    rw [h1]; rfl
  constructor
  · rw [hc]; exact h2
  · rw [hc]
    have h0 : ({ conn := p.conn, save := [], idle := 0, removed := 0 } :
        CleanAcc).removed = 0 := rfl
    rw [h0] at h3
    show p.closed +
      (List.foldl (p.cleanStep now)
        { conn := p.conn, save := [], idle := 0, removed := 0 }
        p.connections).removed + kl.length =
        p.closed + p.connections.length
    omega

theorem clean_kept (p : PoolState) (now : Nat) (hnd : p.connections.Nodup)
    (j : Nat) (hj : j ∈ p.connections) :
    j ∈ (p.clean now).connections ∨
    ((p.clean now).conn j).status = ConnectionStatus.Closed :=
  cleanFold_kept p now p.connections
    { conn := p.conn, save := [], idle := 0, removed := 0 } hnd j hj

theorem inv_clean (p : PoolState) (now : Nat) (inv : PoolInv p) :
    PoolInv (p.clean now) := by
  refine ⟨?_, ?_, ?_, ?_, ?_, ?_, ?_, ?_⟩
  · rw [clean_idleQueue, clean_idleCap]; exact inv.capBound
  · rw [clean_idleQueue]; exact inv.queueNodup
  · rw [clean_idleQueue, clean_nextId]; exact inv.queueLt
  · rw [clean_idleQueue]
    intro j hj
    rcases clean_status p now j with h | ⟨_, h⟩
    · rw [h]; exact inv.queueNotBusy j hj
    · rw [h]; simp
  · rw [clean_idleQueue, clean_nextId]
    intro j hj hidle
    rcases clean_status p now j with h | ⟨_, h⟩
    · exact inv.idleInQueue j hj (h ▸ hidle)
    · rw [h] at hidle; exact absurd hidle (by simp)
  · rw [clean_nextId]
    intro j hj hopen
    rcases clean_status p now j with h | ⟨_, h⟩
    · have hmem := inv.openInConns j hj (h ▸ hopen)
      rcases clean_kept p now inv.connsNodup j hmem with h2 | h2
      · exact h2
      · exact absurd h2 hopen
    · exact absurd h hopen
  · rw [clean_nextId]
    intro j hj
    exact inv.connsLt j ((clean_connections_sublist p now).1.subset hj)
  · exact List.Nodup.sublist (clean_connections_sublist p now).1 inv.connsNodup

theorem inv_give_core (p : PoolState) (cid now : Nat)
    (hlt : cid < p.nextId)
    (hnq : cid ∉ p.idleQueue)
    (hst : (p.conn cid).status = ConnectionStatus.Busy ∨
      (p.conn cid).status = ConnectionStatus.Idle)
    (capBound : p.idleQueue.length ≤ p.idleCap)
    (queueNodup : p.idleQueue.Nodup)
    (queueLt : ∀ j ∈ p.idleQueue, j < p.nextId)
    (queueNotBusy : ∀ j ∈ p.idleQueue,
      (p.conn j).status ≠ ConnectionStatus.Busy)
    (idleInQueueX : ∀ j, j < p.nextId → j ≠ cid →
      (p.conn j).status = ConnectionStatus.Idle → j ∈ p.idleQueue) :
    (p.give cid now).idleQueue.length ≤ (p.give cid now).idleCap ∧
    (p.give cid now).idleQueue.Nodup ∧
    (∀ j ∈ (p.give cid now).idleQueue, j < (p.give cid now).nextId) ∧
    (∀ j ∈ (p.give cid now).idleQueue,
      ((p.give cid now).conn j).status ≠ ConnectionStatus.Busy) ∧
    (∀ j, j < (p.give cid now).nextId →
      ((p.give cid now).conn j).status = ConnectionStatus.Idle →
      j ∈ (p.give cid now).idleQueue) ∧
    (p.give cid now).connections = p.connections ∧
    (p.give cid now).nextId = p.nextId ∧
    (p.give cid now).idleCap = p.idleCap ∧
    (∀ j, j ≠ cid → (p.give cid now).conn j = p.conn j) ∧
    ((p.give cid now).conn cid).status ≠ ConnectionStatus.Busy := by
  have hnc : ¬ (p.conn cid).status = ConnectionStatus.Closed := by
    rcases hst with h | h <;> simp [h]
  unfold PoolState.give
  rw [if_neg hnc]
  by_cases hcap : p.idleCap ≤ p.idleQueue.length
  · rw [if_pos hcap]
    refine ⟨capBound, queueNodup, queueLt, ?_, ?_, rfl, rfl, rfl, ?_, ?_⟩
    · intro j hj
      rw [PoolState.setConn_conn]
      split
      next heq => exact absurd (heq ▸ hj) hnq
      next => exact queueNotBusy j hj
    · intro j hj hidle
      rw [PoolState.setConn_conn] at hidle
      split at hidle
      next =>
        rw [Connection.close_status] at hidle
        exact absurd hidle (by simp)
      next hne => exact idleInQueueX j hj hne hidle
    · intro j hj
      rw [PoolState.setConn_conn, if_neg hj]
    · rw [PoolState.setConn_conn, if_pos rfl, Connection.close_status]
      simp
  · rw [if_neg hcap]
    refine ⟨?_, ?_, ?_, ?_, ?_, rfl, rfl, rfl, ?_, ?_⟩
    · show (p.idleQueue ++ [cid]).length ≤ p.idleCap
      simp only [List.length_append, List.length_singleton]
      omega
    · rw [List.nodup_append]
      exact ⟨queueNodup, List.nodup_singleton cid, by
        intro x hx hx'
        rw [List.mem_singleton] at hx'
        exact hnq (hx' ▸ hx)⟩
    · intro j hj
      rcases List.mem_append.mp hj with h | h
      · exact queueLt j h
      · rw [List.mem_singleton] at h; exact h ▸ hlt
    · intro j hj
      rw [PoolState.setConn_conn]
      split
      next => simp
      next hne =>
        rcases List.mem_append.mp hj with h | h
        · exact queueNotBusy j h
        · rw [List.mem_singleton] at h; exact absurd h hne
    · intro j hj hidle
      rw [PoolState.setConn_conn] at hidle
      split at hidle
      next heq =>
        exact List.mem_append_right _ (heq ▸ List.mem_singleton_self cid)
      next hne =>
        exact List.mem_append_left _ (idleInQueueX j hj hne hidle)
    · intro j hj
      rw [PoolState.setConn_conn, if_neg hj]
    · rw [PoolState.setConn_conn, if_pos rfl]
      simp

theorem inv_giveBack (p : PoolState) (cid now : Nat) (inv : PoolInv p) :
    PoolInv (p.giveBack cid now) := by
  unfold PoolState.giveBack
  split
  case isFalse => exact inv
  case isTrue h =>
    obtain ⟨hlt, hbusy⟩ := h
    have hnq : cid ∉ p.idleQueue := fun hmem =>
      inv.queueNotBusy cid hmem hbusy
    obtain ⟨f1, f2, f3, f4, f5, f6, f7, f8, f9, _⟩ :=
      inv_give_core p cid now hlt hnq (Or.inl hbusy) inv.capBound
        inv.queueNodup inv.queueLt inv.queueNotBusy
        (fun j hj _ hidle => inv.idleInQueue j hj hidle)
    refine ⟨f1, f2, f3, f4, f5, ?_, ?_, ?_⟩
    · intro j hj hopen
      rw [f6, f7] at *
      by_cases hje : j = cid
      · subst hje
        exact inv.openInConns j hlt (by rw [hbusy]; simp)
      · rw [f9 j hje] at hopen
        exact inv.openInConns j hj hopen
    · rw [f6, f7]; exact inv.connsLt
    · rw [f6]; exact inv.connsNodup

theorem inv_register_aux (p1 : PoolState) (n now : Nat)
    (a1 : n < p1.nextId)
    (a2 : ∀ j ∈ p1.idleQueue, j < n)
    (a3 : p1.idleQueue.Nodup)
    (a4 : p1.idleQueue.length ≤ p1.idleCap)
    (a5 : ∀ j ∈ p1.idleQueue, (p1.conn j).status ≠ ConnectionStatus.Busy)
    (a6 : ∀ j, j < p1.nextId → j ≠ n →
      (p1.conn j).status = ConnectionStatus.Idle → j ∈ p1.idleQueue)
    (a7 : (p1.conn n).status = ConnectionStatus.Idle)
    (a8 : ∀ j, j < p1.nextId → j ≠ n →
      (p1.conn j).status ≠ ConnectionStatus.Closed → j ∈ p1.connections)
    (a9 : ∀ j ∈ p1.connections, j < n)
    (a10 : p1.connections.Nodup) :
    PoolInv { (p1.give n now).clean now with
      connections := ((p1.give n now).clean now).connections ++ [n] } := by
  have hnq : n ∉ p1.idleQueue := fun h => absurd (a2 n h) (lt_irrefl n)
  obtain ⟨g1, g2, g3, g4, g5, g6, g7, g8, g9, _⟩ :=
    inv_give_core p1 n now a1 hnq (Or.inr a7) a4 a3
      (fun j hj => lt_trans (a2 j hj) a1) a5 a6
  have hsub := (clean_connections_sublist (p1.give n now) now).1
  have hp2nodup : (p1.give n now).connections.Nodup := g6 ▸ a10
  have hp3lt : ∀ j ∈ ((p1.give n now).clean now).connections, j < n := by
    intro j hj
    exact a9 j (g6 ▸ hsub.subset hj)
  have hnnotin : n ∉ ((p1.give n now).clean now).connections := fun h =>
    absurd (hp3lt n h) (lt_irrefl n)
  have hnx : ((p1.give n now).clean now).nextId = p1.nextId := by
    rw [clean_nextId]; exact g7
  refine ⟨?_, ?_, ?_, ?_, ?_, ?_, ?_, ?_⟩
  · exact g1
  · exact g2
  · exact g3
  · intro j hj
    rcases clean_status (p1.give n now) now j with h | ⟨_, h⟩
    · show (((p1.give n now).clean now).conn j).status ≠ ConnectionStatus.Busy
      rw [h]; exact g4 j hj
    · show (((p1.give n now).clean now).conn j).status ≠ ConnectionStatus.Busy
      rw [h]; simp
  · intro j hj hidle
    have hidle' : (((p1.give n now).clean now).conn j).status =
        ConnectionStatus.Idle := hidle
    rcases clean_status (p1.give n now) now j with h | ⟨_, h⟩
    · exact g5 j hj (h ▸ hidle')
    · rw [h] at hidle'; exact absurd hidle' (by simp)
  · intro j hj hopen
    have hopen' : (((p1.give n now).clean now).conn j).status ≠
        ConnectionStatus.Closed := hopen
    by_cases hje : j = n
    · exact List.mem_append_right _ (hje ▸ List.mem_singleton_self n)
    · rcases clean_status (p1.give n now) now j with h | ⟨_, h⟩
      · have hp2open : ((p1.give n now).conn j).status ≠
            ConnectionStatus.Closed := h ▸ hopen'
        rw [g9 j hje] at hp2open
        have hjlt0 : j < ((p1.give n now).clean now).nextId := hj
        rw [hnx] at hjlt0
        have hjlt : j < p1.nextId := hjlt0
        have hmem : j ∈ (p1.give n now).connections :=
          g6 ▸ a8 j hjlt hje hp2open
        rcases clean_kept (p1.give n now) now hp2nodup j hmem with h2 | h2
        · exact List.mem_append_left _ h2
        · exact absurd h2 hopen'
      · exact absurd h hopen'
  · intro j hj
    show j < ((p1.give n now).clean now).nextId
    rw [hnx]
    rcases List.mem_append.mp hj with h | h
    · exact lt_trans (hp3lt j h) a1
    · rw [List.mem_singleton] at h; exact h ▸ a1
  · rw [List.nodup_append]
    refine ⟨List.Nodup.sublist hsub hp2nodup, List.nodup_singleton n, ?_⟩
    intro x hx hx'
    rw [List.mem_singleton] at hx'
    exact hnnotin (hx' ▸ hx)

theorem inv_register (p : PoolState) (now : Nat) (inv : PoolInv p) :
    PoolInv (p.register now) := by
  have key := inv_register_aux
    { p.setConn p.nextId (NewConnectionInit now) with nextId := p.nextId + 1 }
    p.nextId now
    (Nat.lt_succ_self p.nextId)
    (fun j hj => inv.queueLt j hj)
    inv.queueNodup
    inv.capBound
    (by
      intro j hj
      rw [PoolState.setConn_conn, if_neg (Nat.ne_of_lt (inv.queueLt j hj))]
      exact inv.queueNotBusy j hj)
    (by
      intro j hj hne hidle
      rw [PoolState.setConn_conn, if_neg hne] at hidle
      have hj' : j < p.nextId + 1 := hj
      exact inv.idleInQueue j (by omega) hidle)
    (by rw [PoolState.setConn_conn, if_pos rfl]; rfl)
    (by
      intro j hj hne hopen
      rw [PoolState.setConn_conn, if_neg hne] at hopen
      have hj' : j < p.nextId + 1 := hj
      exact inv.openInConns j (by omega) hopen)
    (fun j hj => inv.connsLt j hj)
    inv.connsNodup
  exact key

theorem inv_apply (p : PoolState) (op : PoolOp) (inv : PoolInv p) :
    PoolInv (p.apply op) := by
  cases op with
  | register now => exact inv_register p now inv
  | dispatch => exact inv_dispatch p inv
  | giveBack cid now => exact inv_giveBack p cid now inv
  | closeConn cid r => exact inv_closeConn p cid r inv
  | clean now => exact inv_clean p now inv
  | shutdown => exact inv_shutdown p inv

theorem inv_reachable (size maxSize idleTimeout : Nat) (p : PoolState)
    (h : PoolReachable size maxSize idleTimeout p) : PoolInv p := by
  induction h with
  | init => exact inv_init size maxSize idleTimeout
  | step q op _ ih => exact inv_apply q op ih

theorem give_idleCap (p : PoolState) (cid now : Nat) :
    (p.give cid now).idleCap = p.idleCap := by
  unfold PoolState.give
  by_cases h : (p.conn cid).status = ConnectionStatus.Closed
  · rw [if_pos h]
  · rw [if_neg h]
    by_cases hcap : p.idleCap ≤ p.idleQueue.length
    · rw [if_pos hcap]; rfl
    · rw [if_neg hcap]; rfl

theorem apply_idleCap (p : PoolState) (op : PoolOp) :
    (p.apply op).idleCap = p.idleCap := by
  cases op with
  | register now =>
    show ((({ p.setConn p.nextId (NewConnectionInit now) with
        nextId := p.nextId + 1 }).give p.nextId now).clean now).idleCap =
      p.idleCap
    rw [clean_idleCap, give_idleCap]
    rfl
  | dispatch =>
    show p.dispatch.idleCap = p.idleCap
    unfold PoolState.dispatch
    split <;> rfl
  | giveBack cid now =>
    show (p.giveBack cid now).idleCap = p.idleCap
    unfold PoolState.giveBack
    split
    · exact give_idleCap p cid now
    · rfl
  | closeConn cid r =>
    show (p.closeConn cid r).idleCap = p.idleCap
    unfold PoolState.closeConn
    split <;> rfl
  | clean now => exact clean_idleCap p now
  | shutdown => rfl

theorem reachable_idleCap (size maxSize t : Nat) (p : PoolState)
    (h : PoolReachable size maxSize t p) :
    p.idleCap = maxSize * idlePoolMultiplier := by
  induction h with
  | init => rfl
  | step q op _ ih => rw [apply_idleCap]; exact ih

/-- Claim C2: for a socket not `Closed`, `Give` stamps `idleSince` and, when
the idle queue is strictly below capacity, sets the status to `Idle` and
appends the socket to the queue; when the queue is at capacity it instead
closes the socket with the idle-buffer-at-capacity reason and leaves the
queue unchanged.  The capacity is `MaxSize * idlePoolMultiplier` as allocated
by `NewPool`, and in every reachable pool state the idle queue length never
exceeds it. -/
theorem claimC2_give_capacity :
    (∀ (p : PoolState) (cid now : Nat),
      (p.conn cid).status ≠ ConnectionStatus.Closed →
      ((p.give cid now).conn cid).idleSince = now ∧
      (p.idleQueue.length < p.idleCap →
        ((p.give cid now).conn cid).status = ConnectionStatus.Idle ∧
        (p.give cid now).idleQueue = p.idleQueue ++ [cid]) ∧
      (p.idleCap ≤ p.idleQueue.length →
        ((p.give cid now).conn cid).status = ConnectionStatus.Closed ∧
        ((p.give cid now).conn cid).closeReason =
          some (CloseReason.idleBufferAtCapacity p.idleQueue.length
            p.idleCap) ∧
        (p.give cid now).idleQueue = p.idleQueue)) ∧
    (∀ size maxSize t,
      (NewPool size maxSize t).idleCap = maxSize * idlePoolMultiplier) ∧
    (∀ size maxSize t (p : PoolState), PoolReachable size maxSize t p →
      p.idleQueue.length ≤ maxSize * idlePoolMultiplier) := by
  refine ⟨?_, fun size maxSize t => rfl, ?_⟩
  · intro p cid now hnc
    unfold PoolState.give
    rw [if_neg hnc]
    by_cases hcap : p.idleCap ≤ p.idleQueue.length
    · rw [if_pos hcap]
      refine ⟨?_, fun hlt => absurd hcap (by omega), fun _ => ⟨?_, ?_, rfl⟩⟩
      · rw [PoolState.setConn_conn, if_pos rfl]
        unfold Connection.close
        split
        next h => exact absurd h (by simp)
        next => rfl
      · rw [PoolState.setConn_conn, if_pos rfl, Connection.close_status]
      · rw [PoolState.setConn_conn, if_pos rfl]
        unfold Connection.close
        split
        next h => exact absurd h (by simp)
        next => rfl
    · rw [if_neg hcap]
      refine ⟨?_, fun _ => ⟨?_, ?_⟩, fun hle => absurd hle hcap⟩
      · rw [PoolState.setConn_conn, if_pos rfl]
      · rw [PoolState.setConn_conn, if_pos rfl]
      · rfl
  · intro size maxSize t p h
    have inv := inv_reachable size maxSize t p h
    have hc := reachable_idleCap size maxSize t p h
    rw [← hc]
    exact inv.capBound

/-- Witness for C2: a concrete `Give` on a taken (`Busy`) socket of a pool
with spare capacity, and the queue bound at a concrete reachable state. -/
theorem claimC2_give_capacity_witness :
    ((sampleBusyPool.give 0 7).conn 0).idleSince = 7 ∧
    ((NewPool 1 2 5).apply (PoolOp.register 0)).idleQueue.length ≤
      2 * idlePoolMultiplier := by
  constructor
  · exact (claimC2_give_capacity.1 sampleBusyPool 0 7 (by decide)).1
  · exact claimC2_give_capacity.2.2 1 2 5 _
      (PoolReachable.step _ _ PoolReachable.init)

/-- Claim C3: in a reaper pass, `cleanConnection` never closes or removes a
`Busy` socket; removes a `Closed` socket; closes an `Idle` socket with reason
`"idle <age>"` and removes it exactly when the running idle count (including
this socket) exceeds `minSize` and its age exceeds the idle timeout, keeping
it otherwise; `NewPool` sets `minSize = handshake.Size + 1`; and `clean`
adds every dropped socket to the pool's lifetime `closed` counter. -/
theorem claimC3_reaper :
    (∀ (p : PoolState) (now : Nat) (c : Connection) (idle : Nat),
      c.status = ConnectionStatus.Busy →
      p.cleanConnection now c idle = (c, idle, true)) ∧
    (∀ (p : PoolState) (now : Nat) (c : Connection) (idle : Nat),
      c.status = ConnectionStatus.Closed →
      p.cleanConnection now c idle = (c, idle, false)) ∧
    (∀ (p : PoolState) (now : Nat) (c : Connection) (idle : Nat),
      c.status = ConnectionStatus.Idle →
      (p.minSize < idle + 1 ∧ p.idleTimeout < now - c.idleSince →
        p.cleanConnection now c idle =
          (c.close (CloseReason.idleAged (now - c.idleSince)), idle + 1,
            false)) ∧
      (¬(p.minSize < idle + 1 ∧ p.idleTimeout < now - c.idleSince) →
        p.cleanConnection now c idle = (c, idle + 1, true))) ∧
    (∀ size maxSize t, (NewPool size maxSize t).minSize = size + 1) ∧
    (∀ (p : PoolState) (now : Nat),
      (p.clean now).connections.Sublist p.connections ∧
      (p.clean now).closed + (p.clean now).connections.length =
        p.closed + p.connections.length) := by
  refine ⟨?_, ?_, ?_, fun size maxSize t => rfl,
    fun p now => clean_connections_sublist p now⟩
  · intro p now c idle h
    unfold PoolState.cleanConnection
    rw [if_neg (by rw [h]; simp)]
    simp [h]
  · intro p now c idle h
    unfold PoolState.cleanConnection
    rw [if_neg (by rw [h]; simp)]
    simp [h]
  · intro p now c idle h
    constructor
    · intro hcl
      unfold PoolState.cleanConnection
      rw [if_pos h, if_pos hcl]
      simp [Connection.close_status]
    · intro hcl
      unfold PoolState.cleanConnection
      rw [if_pos h, if_neg hcl]
      simp [h]

/-- Witness for C3 at concrete connections: a `Busy` socket is kept
unchanged, and an over-quota old `Idle` one is closed with the idle-age
reason. -/
theorem claimC3_reaper_witness :
    (sampleIdlePool.cleanConnection 9
        { NewConnectionInit 0 with status := ConnectionStatus.Busy } 0 =
      ({ NewConnectionInit 0 with status := ConnectionStatus.Busy }, 0,
        true)) ∧
    (sampleIdlePool.cleanConnection 9 (NewConnectionInit 0) 1 =
      ((NewConnectionInit 0).close (CloseReason.idleAged 9), 2, false)) := by
  constructor
  · exact claimC3_reaper.1 sampleIdlePool 9 _ 0 (by decide)
  · have h := (claimC3_reaper.2.2.1 sampleIdlePool 9 (NewConnectionInit 0) 1
      (by decide)).1 (by decide)
    have h9 : (9 : Nat) - (NewConnectionInit 0).idleSince = 9 := by decide
    rw [h9] at h
    exact h

/-- Claim C4 as stated is false on the code: `Pool.cleanConnection` (and a
reader-error `Close`) closes an `Idle` connection in place without removing
it from the buffered `pool.idle` channel, so a `Closed` connection can sit in
the idle queue.  Concretely: register one connection into a fresh pool, then
close it (`"remote hang up"`); it is still in the queue with status
`Closed`. -/
theorem claimC4_counterexample :
    ¬ (∀ (size maxSize t : Nat) (p : PoolState),
        PoolReachable size maxSize t p →
        ∀ cid, cid < p.nextId →
          (cid ∈ p.idleQueue ↔
            (p.conn cid).status = ConnectionStatus.Idle)) := by
  intro hclaim
  have hreach : PoolReachable 0 1 5
      (((NewPool 0 1 5).apply (PoolOp.register 0)).apply
        (PoolOp.closeConn 0 CloseReason.remoteHangUp)) :=
    PoolReachable.step _ _ (PoolReachable.step _ _ PoolReachable.init)
  have h := hclaim 0 1 5 _ hreach 0 (by decide)
  have hmem : 0 ∈ (((NewPool 0 1 5).apply (PoolOp.register 0)).apply
      (PoolOp.closeConn 0 CloseReason.remoteHangUp)).idleQueue := by decide
  exact absurd (h.mp hmem) (by decide)

/-- Claim C4 (amended): in every reachable pool state, every `Idle`
connection is in the idle queue, and the idle queue never holds a `Busy`
connection; but a connection that was closed in place (reaper pass or reader
error) may remain in the queue until a dispatcher pulls and discards it, so
queue membership does not imply the status is `Idle`. -/
theorem claimC4_idle_queue_amended (size maxSize t : Nat) (p : PoolState)
    (h : PoolReachable size maxSize t p) :
    (∀ cid, cid < p.nextId →
      (p.conn cid).status = ConnectionStatus.Idle → cid ∈ p.idleQueue) ∧
    (∀ cid ∈ p.idleQueue,
      (p.conn cid).status ≠ ConnectionStatus.Busy) := by
  have inv := inv_reachable size maxSize t p h
  exact ⟨inv.idleInQueue, inv.queueNotBusy⟩

/-- Witness for the amended C4 at a concrete reachable state: the one
registered idle connection is in the queue. -/
theorem claimC4_idle_queue_amended_witness :
    0 ∈ ((NewPool 0 1 5).apply (PoolOp.register 0)).idleQueue :=
  (claimC4_idle_queue_amended 0 1 5 _
    (PoolReachable.step _ _ PoolReachable.init)).1 0 (by decide) (by decide)

theorem Connection.Take_snd (c : Connection) :
    ((c.Take).2 = true) ↔ c.status = ConnectionStatus.Idle := by
  unfold Connection.Take
  by_cases h : c.status = ConnectionStatus.Idle <;> simp [h]

theorem dispatchLoop_timeout (deadline : Nat) :
    ∀ (steps : List DispatchStep) (conns : Nat → Connection) (k : Nat)
      (s : DispatchStep),
      steps.get? k = some s → deadline ≤ s.now →
      (∀ j t, j < k → steps.get? j = some t → ∀ cid,
        t.find = FindResult.found cid →
        (conns cid).status ≠ ConnectionStatus.Idle) →
      (dispatchLoop deadline conns steps).1 = none := by
  intro steps
  induction steps with
  | nil =>
    intro conns k s hks
    simp [List.get?] at hks
  | cons s0 rest ih =>
    intro conns k s hks hdead hmiss
    unfold dispatchLoop
    by_cases h1 : deadline ≤ s0.now
    · rw [if_pos h1]
    · rw [if_neg h1]
      by_cases h2 : s0.poolsEmpty = true
      · rw [if_pos h2]
      · rw [if_neg h2]
        cases k with
        | zero =>
          have hs0 : s = s0 := by
            have : some s0 = some s := hks
            exact (Option.some.injEq s0 s ▸ this).symm
          exact absurd (hs0 ▸ hdead) h1
        | succ k' =>
          have hks' : rest.get? k' = some s := hks
          cases hfind : s0.find with
          | removed =>
            simp only
            exact ih conns k' s hks' hdead
              (fun j t hj hjt cid hcid =>
                hmiss (j + 1) t (by omega) hjt cid hcid)
          | noPool => simp only
          | found cid =>
            simp only
            have hni : (conns cid).status ≠ ConnectionStatus.Idle :=
              hmiss 0 s0 (Nat.succ_pos k') rfl cid hfind
            have htf : ((conns cid).Take).2 = false := by
              rcases Bool.eq_false_or_eq_true ((conns cid).Take).2 with h | h
              · exact absurd ((Connection.Take_snd (conns cid)).mp h) hni
              · exact h
            rw [if_neg (by rw [htf]; exact Bool.false_ne_true)]
            have hst : ∀ x,
                ((updateConn conns cid ((conns cid).Take).1) x).status =
                  (conns x).status := by
              intro x
              unfold updateConn
              split
              next hx =>
                subst hx
                rw [Connection.Take_fst_status, if_neg hni]
              next => rfl
            exact ih _ k' s hks' hdead
              (fun j t hj hjt cid' hcid' => by
                rw [hst cid']
                exact hmiss (j + 1) t (by omega) hjt cid' hcid')

/-- Claim C6: each dispatch is bound by deadline `start + Timeout`, with
`Timeout` defaulting to 1 second (`NewConfig`); if no idle socket has been
matched and taken when the clock passes the deadline, the dispatcher returns
`none` (the response channel is closed without a socket) and the caller
surfaces HTTP 526. -/
theorem claimC6_dispatch_deadline :
    NewConfig.timeout = second ∧
    second = 1000000000 ∧
    (∀ (cfg : Config) (start : Nat) (conns : Nat → Connection)
        (steps : List DispatchStep) (k : Nat) (s : DispatchStep),
      steps.get? k = some s → start + cfg.timeout ≤ s.now →
      (∀ j t, j < k → steps.get? j = some t → ∀ cid,
        t.find = FindResult.found cid →
        (conns cid).status ≠ ConnectionStatus.Idle) →
      (Server.dispatchRequest cfg start conns steps).1 = none) ∧
    handleDispatchReply none = some 526 := by
  refine ⟨rfl, rfl, ?_, rfl⟩
  intro cfg start conns steps k s h1 h2 h3
  exact dispatchLoop_timeout (start + cfg.timeout) steps conns k s h1 h2 h3

/-- Witness for C6: with the default config, a single loop iteration whose
clock already reads one second past the start yields no socket, and the
caller maps that to 526. -/
theorem claimC6_dispatch_deadline_witness :
    (Server.dispatchRequest NewConfig 0 (fun _ => NewConnectionInit 0)
      [{ now := 1000000000, poolsEmpty := false,
         find := FindResult.removed }]).1 = none ∧
    handleDispatchReply none = some 526 := by
  refine ⟨?_, claimC6_dispatch_deadline.2.2.2⟩
  exact claimC6_dispatch_deadline.2.2.1 NewConfig 0
    (fun _ => NewConnectionInit 0)
    [{ now := 1000000000, poolsEmpty := false, find := FindResult.removed }]
    0 { now := 1000000000, poolsEmpty := false, find := FindResult.removed }
    rfl (by decide) (fun j t hj => absurd hj (by omega))

theorem findPool_append_self (key : String) :
    ∀ (l : List (String × Nat)), findPool l key = none →
      findPool (l ++ [(key, 0)]) key = some 0 := by
  intro l
  induction l with
  | nil => intro _; simp [findPool]
  | cons kv rest ih =>
    intro h
    rw [List.cons_append]
    unfold findPool at h ⊢
    split at h
    · exact absurd h (by simp)
    · rw [if_neg (by assumption)]
      exact ih h

theorem findPool_bump (key : String) :
    ∀ (l : List (String × Nat)),
      findPool (l.map
        (fun kv => if kv.1 = key then (kv.1, kv.2 + 1) else kv)) key =
      (findPool l key).map (fun n => n + 1) := by
  intro l
  induction l with
  | nil => rfl
  | cons kv rest ih =>
    rw [List.map_cons]
    by_cases hk : kv.1 = key
    · simp only [if_pos hk]
      unfold findPool
      rw [if_pos (show (kv.1, kv.2 + 1).1 = key from hk), if_pos hk]
      rfl
    · simp only [if_neg hk]
      unfold findPool
      rw [if_neg hk, if_neg hk]
      exact ih

theorem registerPool_findPool (pools : List (String × Nat))
    (secret id : String) :
    findPool (registerPool pools secret id) (registerPoolKey secret id) =
      some ((findPool pools (registerPoolKey secret id)).getD 0 + 1) := by
  unfold registerPool
  by_cases h : findPool pools (registerPoolKey secret id) = none
  · rw [if_pos h, findPool_bump,
      findPool_append_self (registerPoolKey secret id) pools h, h]
    rfl
  · rw [if_neg h, findPool_bump]
    obtain ⟨n, hn⟩ := Option.ne_none_iff_exists'.mp h
    rw [hn]
    rfl

theorem registerPool_length_of_found (l : List (String × Nat))
    (secret id : String)
    (h : ¬ findPool l (registerPoolKey secret id) = none) :
    (registerPool l secret id).length = l.length := by
  unfold registerPool
  rw [if_neg h, List.length_map]

/-- Claim C5: with a non-empty validator secret `k`, the canonical pool key
for agent id `i` is the hex of SHA-256 of `k ++ i`; with an empty secret it
is `i` verbatim; the `registerPool` computation agrees with
`mulch.HashKeyID`; and re-registering with the same `(k, i)` lands in the
same pool (it bumps the same entry and creates no second pool). -/
theorem claimC5_canonical_key :
    (∀ secret id, secret ≠ "" →
      registerPoolKey secret id =
        hexEncode (sha256Bytes (strBytes (secret ++ id)))) ∧
    (∀ id, registerPoolKey "" id = id) ∧
    (∀ secret id, registerPoolKey secret id = HashKeyID secret id) ∧
    (∀ pools secret id,
      findPool (registerPool pools secret id) (registerPoolKey secret id) =
        some ((findPool pools (registerPoolKey secret id)).getD 0 + 1)) ∧
    (∀ pools secret id,
      (registerPool (registerPool pools secret id) secret id).length =
        (registerPool pools secret id).length) := by
  refine ⟨?_, ?_, ?_, registerPool_findPool, ?_⟩
  · intro secret id h
    unfold registerPoolKey
    rw [if_pos h]
  · intro id
    unfold registerPoolKey
    simp
  · intro secret id
    unfold registerPoolKey HashKeyID
    by_cases h : secret = "" <;> simp [h]
  · intro pools secret id
    exact registerPool_length_of_found (registerPool pools secret id)
      secret id (by rw [registerPool_findPool]; simp)

/-- Witness for C5: the concrete key for secret `"s"` and id `"a"`, and the
re-registration pool count starting from no pools. -/
theorem claimC5_canonical_key_witness :
    ("s" : String) ≠ "" ∧
    registerPoolKey "s" "a" =
      hexEncode (sha256Bytes (strBytes ("s" ++ "a"))) ∧
    (registerPool (registerPool [] "" "a") "" "a").length =
      (registerPool [] "" "a").length :=
  ⟨by decide, claimC5_canonical_key.1 "s" "a" (by decide),
    claimC5_canonical_key.2.2.2.2 [] "" "a"⟩

set_option maxRecDepth 10000 in
/-- SHA-256 faithfulness anchor: the FIPS 180-4 test vector for `"abc"`,
checked by kernel computation of the model used in `registerPoolKey` and
`HashKeyID`. -/
theorem sha256_abc_vector :
    hexEncode (sha256Bytes (strBytes "abc")) =
      "ba7816bf8f01cfea414140de5dae2223b00361a396177a9cb410ff61f20015ad" := by
  decide

/-- Claim C10: with no custom `KeyValidator`, every successful validation
returns the empty secret, so the canonical pool key is the agent id verbatim
and the SHA-256 rewriting in `registerPool` / `HashKeyID` is never applied. -/
theorem claimC10_default_empty_secret :
    (∀ secretKey header s,
      validateKey none secretKey header = Except.ok s → s = "") ∧
    (∀ id, HashKeyID "" id = id) ∧
    (∀ id, registerPoolKey "" id = id) := by
  refine ⟨?_, fun id => by unfold HashKeyID; simp,
    fun id => by unfold registerPoolKey; simp⟩
  intro secretKey header s hok
  have hok' : (if headerGet header SecretKeyHeader = secretKey then
      Except.ok ""
      else (Except.error "invalid secret key provided" :
        Except String String)) = Except.ok s := hok
  split at hok'
  · injection hok' with h
    exact h.symm
  · exact Except.noConfusion hok'

/-- Witness for C10: default validation of a matching header succeeds with
the empty secret, and the resulting pool key is the id itself. -/
theorem claimC10_default_empty_secret_witness :
    validateKey none "k" [(SecretKeyHeader, ["k"])] = Except.ok "" ∧
    ("" : String) = "" ∧
    registerPoolKey "" "agent1" = "agent1" :=
  ⟨rfl,
    claimC10_default_empty_secret.1 "k" [(SecretKeyHeader, ["k"])] "" rfl,
    claimC10_default_empty_secret.2.2 "agent1"⟩

/-- Counterexample to claim C8: the greeting `"a_5_2"` declares
`size = 5 > max = 2`, yet `parseGreeting` accepts it and `HandleRegister`
hands it to the dispatcher for registration — there is no `size ≤ max`
check, so the claim "a handshake whose size exceeds its max is rejected at
registration" is false. -/
theorem claimC8_counterexample :
    HandleRegister "" "a_5_2" =
      some { size := 5, max := 2, id := "a", secret := "" } ∧
    ¬ ((5 : Int) ≤ 2) ∧
    ¬ (∀ secret greeting cfg,
        HandleRegister secret greeting = some cfg → cfg.size ≤ cfg.max) := by
  refine ⟨by decide, by decide, ?_⟩
  intro h
  have h2 := h "" "a_5_2" { size := 5, max := 2, id := "a", secret := "" }
    (by decide)
  exact absurd h2 (by decide)

/-- Claim C8 (amended): registration rejects a greeting exactly when it does
not parse — wrong underscore-separated field count or non-integer size/max
fields; every successfully parsed handshake, including one with
`size > max`, is handed to the dispatcher and registered. -/
theorem claimC8_no_size_max_validation :
    (∀ secret greeting cfg, parseGreeting greeting = Except.ok cfg →
      HandleRegister secret greeting = some { cfg with secret := secret }) ∧
    (∀ secret greeting e, parseGreeting greeting = Except.error e →
      HandleRegister secret greeting = none) := by
  constructor
  · intro secret greeting cfg h
    unfold HandleRegister
    rw [h]
  · intro secret greeting e h
    unfold HandleRegister
    rw [h]

/-- Witness for the amended C8: the oversized greeting `"a_5_2"` parses and
is registered with the validator secret attached; a malformed greeting is
rejected. -/
theorem claimC8_no_size_max_validation_witness :
    parseGreeting "a_5_2" =
      Except.ok { size := 5, max := 2, id := "a", secret := "" } ∧
    HandleRegister "sec" "a_5_2" =
      some { size := 5, max := 2, id := "a", secret := "sec" } ∧
    HandleRegister "sec" "bad" = none := by
  refine ⟨rfl, ?_, ?_⟩
  · exact claimC8_no_size_max_validation.1 "sec" "a_5_2"
      { size := 5, max := 2, id := "a", secret := "" } rfl
  · exact claimC8_no_size_max_validation.2 "sec" "bad"
      "invalid data received: greeting separator count is wrong" rfl

/-- Claim C9: for every request whose serialized URL string parses back
successfully, unserializing the serialization restores the method, URL
string, header multi-map, content length, remote address, host, proto and
request URI of the original request. -/
theorem claimC9_serialize_roundtrip (r : HttpRequest) (u : URL)
    (h : HTTPRequest) (hu : r.url = some u)
    (hs : SerializeHTTPRequest r = some h)
    (hp : (urlParse h.url).isSome = true) :
    (UnserializeHTTPRequest h).method = r.method ∧
    ((UnserializeHTTPRequest h).url.map urlString) =
      (r.url.map urlString) ∧
    (UnserializeHTTPRequest h).header = r.header ∧
    (UnserializeHTTPRequest h).contentLength = r.contentLength ∧
    (UnserializeHTTPRequest h).remoteAddr = r.remoteAddr ∧
    (UnserializeHTTPRequest h).host = r.host ∧
    (UnserializeHTTPRequest h).proto = r.proto ∧
    (UnserializeHTTPRequest h).requestURI = r.requestURI := by
  unfold SerializeHTTPRequest at hs
  rw [hu] at hs
  simp only [Option.map_some'] at hs
  injection hs with hrec
  subst hrec
  have hparse : urlParse (urlString u) = some { raw := u.raw } := by
    unfold urlParse at hp ⊢
    split at hp
    · exact absurd hp (by simp)
    next hc =>
      rw [if_neg hc]
      rfl
  refine ⟨rfl, ?_, rfl, rfl, rfl, rfl, rfl, rfl⟩
  show ((urlParse (urlString u)).map urlString) = (r.url.map urlString)
  rw [hparse, hu]

/-- Witness for C9 at a concrete GET request. -/
theorem claimC9_serialize_roundtrip_witness :
    ({ method := "GET", url := some { raw := "http://example.com/x" },
       header := [("Accept", ["text/html"])], contentLength := 3,
       remoteAddr := "10.0.0.1:4321", host := "example.com",
       proto := "HTTP/1.1", requestURI := "/x" } : HttpRequest).url =
      some { raw := "http://example.com/x" } ∧
    (UnserializeHTTPRequest
      { method := "GET", url := "http://example.com/x",
        header := [("Accept", ["text/html"])], contentLength := 3,
        remoteAddr := "10.0.0.1:4321", host := "example.com",
        proto := "HTTP/1.1", requestURI := "/x" }).method = "GET" := by
  refine ⟨rfl, ?_⟩
  exact (claimC9_serialize_roundtrip
    { method := "GET", url := some { raw := "http://example.com/x" },
      header := [("Accept", ["text/html"])], contentLength := 3,
      remoteAddr := "10.0.0.1:4321", host := "example.com",
      proto := "HTTP/1.1", requestURI := "/x" }
    { raw := "http://example.com/x" }
    { method := "GET", url := "http://example.com/x",
      header := [("Accept", ["text/html"])], contentLength := 3,
      remoteAddr := "10.0.0.1:4321", host := "example.com",
      proto := "HTTP/1.1", requestURI := "/x" }
    rfl rfl (by decide)).1
